import Mathlib

/-
Verification of the Trading-Calendar Sentiment Aggregation Engine
(SPA_AI/sentiment/optimized_sentiment_update.py and
 SPA_AI/sentiment/reset_aggregate_sentiment_30days.py).

Calendar dates are modelled as natural numbers (abstract day indices:
successive integers are successive calendar days, so `d + 1` is the day
after `d`).  The fixed source constant '2024-01-01' is carried as an
explicit `cutoff` parameter.  The tabular store is modelled by in-memory
lists of rows; `update(...).eq("date", d)` is modelled by mapping over the
row list and rewriting the three sentiment counters of every row whose
date matches — rows are never inserted or deleted, exactly as in the
source.  A `sentiment` value of `none` models both SQL null and the empty
string (the source filters both out with the same pair of `neq` filters).
-/

namespace SPA

inductive Label where
  | Positive : Label
  | Negative : Label
  | Neutral : Label
deriving DecidableEq

/-- One row of an `<Instrument>_News` table: the fields the engine reads. -/
structure NewsRow where
  date : Nat
  sentiment : Option Label
deriving DecidableEq

/-- One row of an `<Instrument>_Stock` table: the fields the engine touches.
`close` models `close_price` (`none` = null/empty). -/
structure SessionRow where
  date : Nat
  close : Option Nat
  Positive : Nat
  Negative : Nat
  Neutral : Nat
deriving DecidableEq

/-- A triple of per-label counters, as carried around by the aggregation
dictionaries (`pending_sentiment`, aggregated rows, etc.). -/
structure Counts where
  pos : Nat
  neg : Nat
  neu : Nat
deriving DecidableEq

/-- The persistent store visible to the engine: one instrument's stock table
and news table. -/
structure EngineState where
  stock : List SessionRow
  news : List NewsRow
deriving DecidableEq

def zeroCounts : Counts := ⟨0, 0, 0⟩

def addCounts (a b : Counts) : Counts := ⟨a.pos + b.pos, a.neg + b.neg, a.neu + b.neu⟩

/-- The source's `.neq("sentiment", None).neq("sentiment", "")` filter. -/
def labeled (r : NewsRow) : Bool := r.sentiment.isSome

/-- Number of rows dated `d` carrying label `lab` (one cell of the
`groupby('date')['sentiment'].value_counts()` pivot). -/
def countLabel (rows : List NewsRow) (d : Nat) (lab : Label) : Nat :=
  rows.countP (fun r => decide (r.date = d ∧ r.sentiment = some lab))

/-- Per-label totals of a row collection (`value_counts` reindexed to the
three sentiment columns; rows with other/absent labels count nowhere). -/
def countsOfRows (rows : List NewsRow) : Counts :=
  ⟨rows.countP (fun r => decide (r.sentiment = some Label.Positive)),
   rows.countP (fun r => decide (r.sentiment = some Label.Negative)),
   rows.countP (fun r => decide (r.sentiment = some Label.Neutral))⟩

def countsAt (rows : List NewsRow) (d : Nat) : Counts :=
  ⟨countLabel rows d Label.Positive, countLabel rows d Label.Negative,
   countLabel rows d Label.Neutral⟩

def insertSorted (d : Nat) : List Nat → List Nat
  | [] => [d]
  | x :: xs => if d ≤ x then d :: x :: xs else x :: insertSorted d xs

/-- `sorted(...)` on a list of dates (insertion sort; any sort of Nat dates
produces the same ascending list). -/
def sortDates (l : List Nat) : List Nat := l.foldr insertSorted []

def chunksOfGo (k : Nat) : Nat → List Nat → List (List Nat)
  | 0, _ => []
  | fuel + 1, l => if l.isEmpty then [] else l.take k :: chunksOfGo k fuel (l.drop k)

/-- `[lst[i:i+k] for i in range(0, len(lst), k)]`. -/
def chunksOf (k : Nat) (l : List Nat) : List (List Nat) := chunksOfGo k l.length l

/-- `select("date, sentiment").neq(...).neq(...).eq("date", d)`. -/
def queryEqDate (news : List NewsRow) (d : Nat) : List NewsRow :=
  news.filter (fun r => labeled r && decide (r.date = d))

/-- `select("date, sentiment").neq(...).neq(...).in_("date", ds)`. -/
def queryInDates (news : List NewsRow) (ds : List Nat) : List NewsRow :=
  news.filter (fun r => labeled r && decide (r.date ∈ ds))

/-- The chunked fetch loop shared by `get_daily_sentiment_stats` (k = 10)
and `get_aggregated_sentiment_stats` (k = 20): a single-element chunk uses
the equality filter, a longer chunk the set-membership filter. -/
def chunkedQuery (news : List NewsRow) (ds : List Nat) (k : Nat) : List NewsRow :=
  (chunksOf k ds).flatMap (fun c =>
    match c with
    | [d] => queryEqDate news d
    | _ => queryInDates news c)

/-- `groupby('date')['sentiment'].value_counts().unstack(fill_value=0)`:
one `(date, counts)` row per distinct date present, ascending. -/
def perDateStats (rows : List NewsRow) : List (Nat × Counts) :=
  (sortDates ((rows.map (fun r => r.date)).dedup)).map (fun d => (d, countsAt rows d))

/-- The `for trading_day_str in trading_days_list: if trading_day_date > news_date`
scan (first trading day strictly after `d`, on the ascending list). -/
def nextTradingDay (tds : List Nat) (d : Nat) : Option Nat :=
  tds.find? (fun td => decide (d < td))

/-- The per-news-date branch of the active (Roll-Forward) arm of
`get_affected_trading_days` (optimized_sentiment_update.py lines 79-114):
a trading day maps to itself; otherwise the next trading day; otherwise
the latest trading day when `news_date >= latest`; otherwise no target. -/
def rollForwardTarget (tds : List Nat) (d : Nat) : Option Nat :=
  if d ∈ tds then some d
  else
    match nextTradingDay tds d with
    | some td => some td
    | none =>
      match tds.getLast? with
      | some latest => if latest ≤ d then some latest else none
      | none => none

/-- `if t not in mapping: mapping[t] = []; mapping[t].append(d)` on an
insertion-ordered dictionary. -/
def insertPair (m : List (Nat × List Nat)) (t d : Nat) : List (Nat × List Nat) :=
  match m with
  | [] => [(t, [d])]
  | kv :: rest => if kv.1 = t then (kv.1, kv.2 ++ [d]) :: rest else kv :: insertPair rest t d

def buildMappingStep (tds : List Nat) (acc : List (Nat × List Nat)) (d : Nat) :
    List (Nat × List Nat) :=
  match rollForwardTarget tds d with
  | some t => insertPair acc t d
  | none => acc

def buildMappingGo (tds : List Nat) (acc : List (Nat × List Nat)) :
    List Nat → List (Nat × List Nat)
  | [] => acc
  | d :: rest => buildMappingGo tds (buildMappingStep tds acc d) rest

/-- The active-stock arm of `get_affected_trading_days`: build the
trading-day → news-dates dictionary by rolling each news date forward. -/
def buildMapping (tds newsDates : List Nat) : List (Nat × List Nat) :=
  buildMappingGo tds [] newsDates

def buildDailyMappingGo (acc : List (Nat × List Nat)) : List Nat → List (Nat × List Nat)
  | [] => acc
  | d :: rest => buildDailyMappingGo (insertPair acc d d) rest

/-- The low-activity arm of `get_affected_trading_days`: every news date
keys its own (possibly virtual) entry. -/
def buildDailyMapping (newsDates : List Nat) : List (Nat × List Nat) :=
  buildDailyMappingGo [] newsDates

/-- `len([day for day in trading_days_list if day >= '2024-01-01'])`
with the fixed date carried as `cutoff`. -/
def recentCount (cutoff : Nat) (tds : List Nat) : Nat :=
  (tds.filter (fun d => decide (cutoff ≤ d))).length

/-- `is_low_activity_stock = len(recent_days) < 50` (line 56): `true` picks
the daily-identity mapping, `false` the roll-forward mapping. -/
def resolverMode (cutoff : Nat) (tds : List Nat) : Bool :=
  decide (recentCount cutoff tds < 50)

/-- `get_affected_trading_days(db, stock_table, news_dates)`, taking the
stock table's date column in place of the store handle. -/
def get_affected_trading_days (cutoff : Nat) (stockDatesList newsDates : List Nat) :
    List (Nat × List Nat) :=
  if newsDates.isEmpty then []
  else if (sortDates stockDatesList).isEmpty then []
  else if resolverMode cutoff (sortDates stockDatesList) then buildDailyMapping newsDates
  else buildMapping (sortDates stockDatesList) newsDates

/-- The strategy selection of `optimized_process_sentiment_to_stock`
(lines 353-366): `Except.error` models the count query raising (default to
active); `Option Nat` models the returned count, a falsy count coerced
to 0.  `true` = low activity (daily), `false` = active (roll-forward). -/
def selectStrategy : Except Unit (Option Nat) → Bool
  | Except.error _ => false
  | Except.ok c => decide (c.getD 0 < 50)

/-- Rewrite the three counters of a session row (`update({...})`). -/
def setCounters (x : SessionRow) (c : Counts) : SessionRow :=
  { x with Positive := c.pos, Negative := c.neg, Neutral := c.neu }

def lookupWrite (W : List (Nat × Counts)) (d : Nat) : Option Counts :=
  (W.find? (fun p => decide (p.1 = d))).map (fun p => p.2)

/-- Effect of a batch of `update(...).eq("date", d)` statements on one row:
dates absent from the batch (or from the table) cause no change. -/
def wApply (W : List (Nat × Counts)) (x : SessionRow) : SessionRow :=
  match lookupWrite W x.date with
  | some c => setCounters x c
  | none => x

/-- Apply a batch of per-date counter writes to the stock table: updates in
place, never inserts or deletes a row. -/
def applyWrites (l : List SessionRow) (W : List (Nat × Counts)) : List SessionRow :=
  l.map (wApply W)

/-- `select("date")` on the stock table. -/
def stockDates (stock : List SessionRow) : List Nat := stock.map (fun x => x.date)

def getRow (stock : List SessionRow) (d : Nat) : Option SessionRow :=
  stock.find? (fun x => decide (x.date = d))

def prevTradingDayGo : Nat → List Nat → Nat → Option Nat
  | _, [], _ => none
  | x, y :: ys, a => if y = a then some x else prevTradingDayGo y ys a

/-- The `for i, td in enumerate(trading_days_list): if td == a and i > 0:
prev = list[i-1]` scan of `get_aggregated_sentiment_stats`. -/
def prevTradingDay (tds : List Nat) (a : Nat) : Option Nat :=
  match tds with
  | [] => none
  | x :: rest => prevTradingDayGo x rest a

def rangeStart (tds : List Nat) (a : Nat) : Nat :=
  match prevTradingDay tds a with
  | some p => p + 1
  | none => a - 7

/-- The widened per-session fetch range of `get_aggregated_sentiment_stats`
(lines 270-285): previous trading day + 1 through the affected day, or a
7-day lookback when no previous trading day exists. -/
def rangeFor (tds : List Nat) (a : Nat) : List Nat :=
  List.range' (rangeStart tds a) (a + 1 - rangeStart tds a)

/-- Line 236: a fetched record's trading day is the first mapping key whose
news-date list contains the record's date (falling back to the date). -/
def assignKey (m : List (Nat × List Nat)) (d : Nat) : Nat :=
  match m.find? (fun kv => decide (d ∈ kv.2)) with
  | some kv => kv.1
  | none => d

/-- `get_daily_sentiment_stats(db, news_table, mapping)`. -/
def get_daily_sentiment_stats (news : List NewsRow) (m : List (Nat × List Nat)) :
    List (Nat × Counts) :=
  let rows := m.flatMap (fun kv => chunkedQuery news kv.2 10)
  let keys := sortDates ((rows.map (fun r => assignKey m r.date)).dedup)
  keys.map (fun k => (k, countsOfRows (rows.filter (fun r => decide (assignKey m r.date = k)))))

/-- `get_aggregated_sentiment_stats(db, news_table, mapping)`: union the
widened ranges of the affected sessions (a set of dates), fetch in chunks
of 20, then group per raw date. -/
def get_aggregated_sentiment_stats (news : List NewsRow) (tds : List Nat)
    (m : List (Nat × List Nat)) : List (Nat × Counts) :=
  let relevant := sortDates ((m.flatMap (fun kv => rangeFor tds kv.1)).dedup)
  perDateStats (chunkedQuery news relevant 20)

/-- Modelled from the spec: `aggregate_sentiment_for_trading_days` (and the
subsequent `update_stock_sentiment_stats` write values) live in
`sentiment/predict_sentiment_db.py`, which is not part of the source tree;
per spec §4.4, the incremental Roll-Forward aggregation computes the same
per-session summation directly: each counted raw date's totals roll onto
its trading session (next-trading-day rule) and the per-session sums are
what gets written. -/
def aggregate_sentiment_for_trading_days (tds : List Nat) (stats : List (Nat × Counts)) :
    List (Nat × Counts) :=
  let tagged := stats.filterMap (fun e => (rollForwardTarget tds e.1).map (fun t => (t, e.2)))
  let keys := sortDates ((tagged.map (fun e => e.1)).dedup)
  keys.map (fun k =>
    ((k : Nat), (tagged.filter (fun e => decide (e.1 = k))).foldl
      (fun acc e => addCounts acc e.2) zeroCounts))

/-- Step 3 of `optimized_process_sentiment_to_stock`: the sentiment stats
per the selected strategy (`get_sentiment_stats_for_affected_dates`). -/
def incStats (cutoff : Nat) (countQ : Except Unit (Option Nat)) (updatedDates : List Nat)
    (s : EngineState) : List (Nat × Counts) :=
  if selectStrategy countQ then
    get_daily_sentiment_stats s.news (get_affected_trading_days cutoff (stockDates s.stock) updatedDates)
  else
    get_aggregated_sentiment_stats s.news (sortDates (stockDates s.stock))
      (get_affected_trading_days cutoff (stockDates s.stock) updatedDates)

/-- The write batches computed by one incremental run, before they hit the
store: `none` = the run returns without writing; `some (R, none)` = only the
reset of the affected trading days happens (empty stats); `some (R, some W)`
= reset then the per-session counter writes. -/
def incPlan (cutoff : Nat) (countQ : Except Unit (Option Nat)) (updatedDates : List Nat)
    (s : EngineState) : Option (List (Nat × Counts) × Option (List (Nat × Counts))) :=
  if updatedDates.isEmpty then none
  else if (get_affected_trading_days cutoff (stockDates s.stock) updatedDates).isEmpty then none
  else
    some (((get_affected_trading_days cutoff (stockDates s.stock) updatedDates).map
             (fun kv => kv.1)).map (fun d => (d, zeroCounts)),
          if (incStats cutoff countQ updatedDates s).isEmpty then none
          else some (if selectStrategy countQ then incStats cutoff countQ updatedDates s
                     else aggregate_sentiment_for_trading_days (sortDates (stockDates s.stock))
                            (incStats cutoff countQ updatedDates s)))

/-- `optimized_process_sentiment_to_stock(db, stock_code, updated_dates)`:
the incremental entry point.  `countQ` is the outcome of the total-news
count query.  Split into the computation of the write batches (`incPlan`)
and their commit; writes happen only to existing rows (`applyWrites`). -/
def optimized_process_sentiment_to_stock (cutoff : Nat) (countQ : Except Unit (Option Nat))
    (updatedDates : List Nat) (s : EngineState) : EngineState :=
  match incPlan cutoff countQ updatedDates s with
  | none => s
  | some (R, none) => ⟨applyWrites s.stock R, s.news⟩
  | some (R, some W) => ⟨applyWrites (applyWrites s.stock R) W, s.news⟩

def inWindow (w₁ w₂ d : Nat) : Bool := decide (w₁ ≤ d) && decide (d ≤ w₂)

/-- Step 1 of `reset_and_aggregate_sentiment_30days`: labeled news rows of
the window. -/
def windowNews (w₁ w₂ : Nat) (news : List NewsRow) : List NewsRow :=
  news.filter (fun r => inWindow w₁ w₂ r.date && labeled r)

/-- Step 2: trading days of the window — stock rows with a valid close. -/
def tradingDaysOf (w₁ w₂ : Nat) (stock : List SessionRow) : List Nat :=
  sortDates ((stock.filter (fun x => inWindow w₁ w₂ x.date && x.close.isSome)).map (fun x => x.date))

/-- Step 3 scope: every stock row of the window is reset (no close filter). -/
def windowStockDates (w₁ w₂ : Nat) (stock : List SessionRow) : List Nat :=
  (stock.filter (fun x => inWindow w₁ w₂ x.date)).map (fun x => x.date)

/-- One iteration of the step-4 sweep: add the day's counts to the pending
bucket; flush onto the day iff it is a trading day. -/
def sweepStep (tdays : List Nat) (st : List (Nat × Counts) × Counts) (e : Nat × Counts) :
    List (Nat × Counts) × Counts :=
  let pending := addCounts st.2 e.2
  if e.1 ∈ tdays then (st.1 ++ [(e.1, pending)], zeroCounts) else (st.1, pending)

/-- The ascending sweep over the per-date sentiment rows. -/
def sweep (tdays : List Nat) (stats : List (Nat × Counts)) : List (Nat × Counts) × Counts :=
  stats.foldl (sweepStep tdays) ([], zeroCounts)

def bumpFirst : List (Nat × Counts) → Nat → Counts → List (Nat × Counts)
  | [], _, _ => []
  | e :: rest, last, p =>
    if e.1 = last then (e.1, addCounts e.2 p) :: rest else e :: bumpFirst rest last p

/-- The remaining-pending handler (lines 158-183): a nonzero leftover bucket
is added into the last trading day's entry, or appended as a new entry. -/
def addTail (tdays : List Nat) (agg : List (Nat × Counts)) (pending : Counts) :
    List (Nat × Counts) :=
  if pending = zeroCounts then agg
  else
    match tdays.getLast? with
    | none => agg
    | some last =>
      if agg.any (fun e => decide (e.1 = last)) then bumpFirst agg last pending
      else agg ++ [(last, pending)]

def fullAgg (tdays : List Nat) (stats : List (Nat × Counts)) : List (Nat × Counts) :=
  addTail tdays (sweep tdays stats).1 (sweep tdays stats).2

/-- The write batches of one full-window run: `none` = short-circuit before
any write (no window news / no trading days), otherwise the window-wide
reset batch and the swept aggregate batch. -/
def fullPlan (w₁ w₂ : Nat) (s : EngineState) :
    Option (List (Nat × Counts) × List (Nat × Counts)) :=
  if (windowNews w₁ w₂ s.news).isEmpty then none
  else if (tradingDaysOf w₁ w₂ s.stock).isEmpty then none
  else
    some ((windowStockDates w₁ w₂ s.stock).map (fun d => (d, zeroCounts)),
          fullAgg (tradingDaysOf w₁ w₂ s.stock) (perDateStats (windowNews w₁ w₂ s.news)))

/-- `reset_and_aggregate_sentiment_30days(stock_code)`: the full-window
entry point, with the window `[w₁, w₂]` passed explicitly (the source
computes it from the current date).  Split into the computation of the
write batches (`fullPlan`) and their commit: reset every window session,
then write the aggregated counts onto existing rows. -/
def reset_and_aggregate_sentiment_30days (w₁ w₂ : Nat) (s : EngineState) : EngineState :=
  match fullPlan w₁ w₂ s with
  | none => s
  | some (R, W) => ⟨applyWrites (applyWrites s.stock R) W, s.news⟩

/-- Per-label totals of the labeled news dated in the span `(lo, hi]`
(the day after session `lo` through session `hi`). -/
def spanSum (news : List NewsRow) (lo hi : Nat) : Counts :=
  countsOfRows (news.filter (fun r => decide (lo < r.date) && decide (r.date ≤ hi)))

/-- A 50-session calendar (dates 100..149, all with a close price), dense
enough that the resolver classifies the instrument as active. -/
def demoStock : List SessionRow := (List.range 50).map (fun i => ⟨100 + i, some 1, 0, 0, 0⟩)

def demoNews : List NewsRow := [⟨95, some Label.Neutral⟩]

def demoState : EngineState := ⟨demoStock, demoNews⟩

theorem setCounters_date (x : SessionRow) (c : Counts) : (setCounters x c).date = x.date := rfl

theorem setCounters_close (x : SessionRow) (c : Counts) : (setCounters x c).close = x.close := rfl

theorem setCounters_setCounters (x : SessionRow) (c₁ c₂ : Counts) :
    setCounters (setCounters x c₁) c₂ = setCounters x c₂ := rfl

theorem wApply_none (W : List (Nat × Counts)) (x : SessionRow)
    (h : lookupWrite W x.date = none) : wApply W x = x := by
  unfold wApply
  rw [h]

theorem wApply_some (W : List (Nat × Counts)) (x : SessionRow) (c : Counts)
    (h : lookupWrite W x.date = some c) : wApply W x = setCounters x c := by
  unfold wApply
  rw [h]

theorem wApply_date (W : List (Nat × Counts)) (x : SessionRow) : (wApply W x).date = x.date := by
  cases h : lookupWrite W x.date with
  | none => rw [wApply_none W x h]
  | some c => rw [wApply_some W x c h, setCounters_date]

theorem wApply_close (W : List (Nat × Counts)) (x : SessionRow) :
    (wApply W x).close = x.close := by
  cases h : lookupWrite W x.date with
  | none => rw [wApply_none W x h]
  | some c => rw [wApply_some W x c h, setCounters_close]

theorem wApply_self (W : List (Nat × Counts)) (x : SessionRow) :
    wApply W (wApply W x) = wApply W x := by
  cases h : lookupWrite W x.date with
  | none =>
    have h₁ := wApply_none W x h
    rw [h₁, h₁]
  | some c =>
    have h₁ := wApply_some W x c h
    have h₂ : lookupWrite W (setCounters x c).date = some c := by rw [setCounters_date]; exact h
    rw [h₁, wApply_some W (setCounters x c) c h₂, setCounters_setCounters]

theorem wApply_cycle (R W : List (Nat × Counts)) (x : SessionRow) :
    wApply W (wApply R (wApply W (wApply R x))) = wApply W (wApply R x) := by
  cases hR : lookupWrite R x.date with
  | none =>
    rw [wApply_none R x hR]
    have hR₁ : lookupWrite R (wApply W x).date = none := by rw [wApply_date]; exact hR
    rw [wApply_none R (wApply W x) hR₁]
    exact wApply_self W x
  | some cR =>
    have h₁ := wApply_some R x cR hR
    rw [h₁]
    cases hW : lookupWrite W x.date with
    | none =>
      have hW₁ : lookupWrite W (setCounters x cR).date = none := by
        rw [setCounters_date]; exact hW
      rw [wApply_none W (setCounters x cR) hW₁]
      have hR₁ : lookupWrite R (setCounters x cR).date = some cR := by
        rw [setCounters_date]; exact hR
      rw [wApply_some R (setCounters x cR) cR hR₁, setCounters_setCounters,
        wApply_none W (setCounters x cR) hW₁]
    | some cW =>
      have hW₁ : lookupWrite W (setCounters x cR).date = some cW := by
        rw [setCounters_date]; exact hW
      rw [wApply_some W (setCounters x cR) cW hW₁, setCounters_setCounters]
      have hR₁ : lookupWrite R (setCounters x cW).date = some cR := by
        rw [setCounters_date]; exact hR
      rw [wApply_some R (setCounters x cW) cR hR₁, setCounters_setCounters,
        wApply_some W (setCounters x cR) cW hW₁, setCounters_setCounters]

theorem applyWrites_cons (x : SessionRow) (xs : List SessionRow) (W : List (Nat × Counts)) :
    applyWrites (x :: xs) W = wApply W x :: applyWrites xs W := rfl

theorem applyWrites_cycle (l : List SessionRow) (R W : List (Nat × Counts)) :
    applyWrites (applyWrites (applyWrites (applyWrites l R) W) R) W
      = applyWrites (applyWrites l R) W := by
  induction l with
  | nil => rfl
  | cons x xs ih =>
    simp only [applyWrites_cons]
    rw [wApply_cycle, ih]

theorem applyWrites_twice (l : List SessionRow) (R : List (Nat × Counts)) :
    applyWrites (applyWrites l R) R = applyWrites l R := by
  induction l with
  | nil => rfl
  | cons x xs ih =>
    simp only [applyWrites_cons]
    rw [wApply_self, ih]

theorem stockDates_applyWrites (l : List SessionRow) (W : List (Nat × Counts)) :
    stockDates (applyWrites l W) = stockDates l := by
  induction l with
  | nil => rfl
  | cons x xs ih =>
    simp only [applyWrites_cons, stockDates, List.map_cons]
    rw [wApply_date]
    exact congrArg (x.date :: ·) ih

theorem filterDates_applyWrites (p : Nat → Option Nat → Bool) (l : List SessionRow)
    (W : List (Nat × Counts)) :
    ((applyWrites l W).filter (fun x => p x.date x.close)).map (fun x => x.date)
      = (l.filter (fun x => p x.date x.close)).map (fun x => x.date) := by
  induction l with
  | nil => rfl
  | cons x xs ih =>
    simp only [applyWrites_cons, List.filter_cons, wApply_date, wApply_close]
    by_cases hp : p x.date x.close = true
    · rw [if_pos hp, if_pos hp]
      simp only [List.map_cons, wApply_date]
      exact congrArg (x.date :: ·) ih
    · rw [if_neg hp, if_neg hp]
      exact ih

theorem tradingDaysOf_applyWrites (w₁ w₂ : Nat) (l : List SessionRow) (W : List (Nat × Counts)) :
    tradingDaysOf w₁ w₂ (applyWrites l W) = tradingDaysOf w₁ w₂ l := by
  unfold tradingDaysOf
  exact congrArg sortDates (filterDates_applyWrites (fun d c => inWindow w₁ w₂ d && c.isSome) l W)

theorem windowStockDates_applyWrites (w₁ w₂ : Nat) (l : List SessionRow)
    (W : List (Nat × Counts)) :
    windowStockDates w₁ w₂ (applyWrites l W) = windowStockDates w₁ w₂ l := by
  unfold windowStockDates
  exact filterDates_applyWrites (fun d _ => inWindow w₁ w₂ d) l W

theorem incPlan_congr (cutoff : Nat) (countQ : Except Unit (Option Nat)) (u : List Nat)
    (s : EngineState) (stock' : List SessionRow) (h : stockDates stock' = stockDates s.stock) :
    incPlan cutoff countQ u ⟨stock', s.news⟩ = incPlan cutoff countQ u s := by
  simp only [incPlan, incStats]
  rw [h]

theorem fullPlan_congr (w₁ w₂ : Nat) (s : EngineState) (stock' : List SessionRow)
    (h₁ : tradingDaysOf w₁ w₂ stock' = tradingDaysOf w₁ w₂ s.stock)
    (h₂ : windowStockDates w₁ w₂ stock' = windowStockDates w₁ w₂ s.stock) :
    fullPlan w₁ w₂ ⟨stock', s.news⟩ = fullPlan w₁ w₂ s := by
  simp only [fullPlan]
  rw [h₁, h₂]

theorem incRun_of_plan_none (cutoff : Nat) (countQ : Except Unit (Option Nat)) (u : List Nat)
    (s : EngineState) (h : incPlan cutoff countQ u s = none) :
    optimized_process_sentiment_to_stock cutoff countQ u s = s := by
  unfold optimized_process_sentiment_to_stock
  rw [h]

theorem incRun_of_plan_reset (cutoff : Nat) (countQ : Except Unit (Option Nat)) (u : List Nat)
    (s : EngineState) (R : List (Nat × Counts)) (h : incPlan cutoff countQ u s = some (R, none)) :
    optimized_process_sentiment_to_stock cutoff countQ u s = ⟨applyWrites s.stock R, s.news⟩ := by
  unfold optimized_process_sentiment_to_stock
  rw [h]

theorem incRun_of_plan_write (cutoff : Nat) (countQ : Except Unit (Option Nat)) (u : List Nat)
    (s : EngineState) (R W : List (Nat × Counts))
    (h : incPlan cutoff countQ u s = some (R, some W)) :
    optimized_process_sentiment_to_stock cutoff countQ u s
      = ⟨applyWrites (applyWrites s.stock R) W, s.news⟩ := by
  unfold optimized_process_sentiment_to_stock
  rw [h]

theorem fullRun_of_plan_none (w₁ w₂ : Nat) (s : EngineState) (h : fullPlan w₁ w₂ s = none) :
    reset_and_aggregate_sentiment_30days w₁ w₂ s = s := by
  unfold reset_and_aggregate_sentiment_30days
  rw [h]

theorem fullRun_of_plan_some (w₁ w₂ : Nat) (s : EngineState) (R W : List (Nat × Counts))
    (h : fullPlan w₁ w₂ s = some (R, W)) :
    reset_and_aggregate_sentiment_30days w₁ w₂ s
      = ⟨applyWrites (applyWrites s.stock R) W, s.news⟩ := by
  unfold reset_and_aggregate_sentiment_30days
  rw [h]

theorem inc_run_idem (cutoff : Nat) (countQ : Except Unit (Option Nat)) (u : List Nat)
    (s : EngineState) :
    optimized_process_sentiment_to_stock cutoff countQ u
        (optimized_process_sentiment_to_stock cutoff countQ u s)
      = optimized_process_sentiment_to_stock cutoff countQ u s := by
  cases h : incPlan cutoff countQ u s with
  | none =>
    rw [incRun_of_plan_none cutoff countQ u s h, incRun_of_plan_none cutoff countQ u s h]
  | some RW =>
    obtain ⟨R, W?⟩ := RW
    cases W? with
    | none =>
      have h₁ := incRun_of_plan_reset cutoff countQ u s R h
      rw [h₁]
      have h₂ : incPlan cutoff countQ u ⟨applyWrites s.stock R, s.news⟩ = some (R, none) := by
        rw [incPlan_congr cutoff countQ u s (applyWrites s.stock R)
          (stockDates_applyWrites s.stock R)]
        exact h
      rw [incRun_of_plan_reset cutoff countQ u ⟨applyWrites s.stock R, s.news⟩ R h₂]
      show (⟨applyWrites (applyWrites s.stock R) R, s.news⟩ : EngineState) = _
      rw [applyWrites_twice]
    | some W =>
      have h₁ := incRun_of_plan_write cutoff countQ u s R W h
      rw [h₁]
      have h₂ : incPlan cutoff countQ u ⟨applyWrites (applyWrites s.stock R) W, s.news⟩
          = some (R, some W) := by
        rw [incPlan_congr cutoff countQ u s (applyWrites (applyWrites s.stock R) W)
          (by rw [stockDates_applyWrites, stockDates_applyWrites])]
        exact h
      rw [incRun_of_plan_write cutoff countQ u ⟨applyWrites (applyWrites s.stock R) W, s.news⟩ R W h₂]
      show (⟨applyWrites (applyWrites (applyWrites (applyWrites s.stock R) W) R) W, s.news⟩ :
        EngineState) = _
      rw [applyWrites_cycle]

theorem full_run_idem (w₁ w₂ : Nat) (s : EngineState) :
    reset_and_aggregate_sentiment_30days w₁ w₂ (reset_and_aggregate_sentiment_30days w₁ w₂ s)
      = reset_and_aggregate_sentiment_30days w₁ w₂ s := by
  cases h : fullPlan w₁ w₂ s with
  | none =>
    rw [fullRun_of_plan_none w₁ w₂ s h, fullRun_of_plan_none w₁ w₂ s h]
  | some RW =>
    obtain ⟨R, W⟩ := RW
    have h₁ := fullRun_of_plan_some w₁ w₂ s R W h
    rw [h₁]
    have h₂ : fullPlan w₁ w₂ ⟨applyWrites (applyWrites s.stock R) W, s.news⟩ = some (R, W) := by
      rw [fullPlan_congr w₁ w₂ s (applyWrites (applyWrites s.stock R) W)
        (by rw [tradingDaysOf_applyWrites, tradingDaysOf_applyWrites])
        (by rw [windowStockDates_applyWrites, windowStockDates_applyWrites])]
      exact h
    rw [fullRun_of_plan_some w₁ w₂ ⟨applyWrites (applyWrites s.stock R) W, s.news⟩ R W h₂]
    show (⟨applyWrites (applyWrites (applyWrites (applyWrites s.stock R) W) R) W, s.news⟩ :
      EngineState) = _
    rw [applyWrites_cycle]

/-- Claim C3: running either entry point twice in succession with the same
inputs and no change to the news collection leaves every session's
Positive/Negative/Neutral counters (indeed the whole store) equal to their
values after the first run: both runs recompute their write batches from
data (session dates, close validity, news rows) that the runs never
modify, and every targeted session is reset before being written. -/
theorem C3_both_entry_points_idempotent (cutoff : Nat) (countQ : Except Unit (Option Nat))
    (updatedDates : List Nat) (w₁ w₂ : Nat) (s : EngineState) :
    optimized_process_sentiment_to_stock cutoff countQ updatedDates
        (optimized_process_sentiment_to_stock cutoff countQ updatedDates s)
      = optimized_process_sentiment_to_stock cutoff countQ updatedDates s
  ∧ reset_and_aggregate_sentiment_30days w₁ w₂ (reset_and_aggregate_sentiment_30days w₁ w₂ s)
      = reset_and_aggregate_sentiment_30days w₁ w₂ s :=
  ⟨inc_run_idem cutoff countQ updatedDates s, full_run_idem w₁ w₂ s⟩

/-- Claim C7: neither entry point ever inserts (or deletes) a session row:
the stock table's date column is identical before and after every run, so
a mapped session date with no existing row gets no row and no persisted
counts. -/
theorem C7_no_session_row_inserted (cutoff : Nat) (countQ : Except Unit (Option Nat))
    (updatedDates : List Nat) (w₁ w₂ : Nat) (s : EngineState) :
    stockDates (optimized_process_sentiment_to_stock cutoff countQ updatedDates s).stock
      = stockDates s.stock
  ∧ stockDates (reset_and_aggregate_sentiment_30days w₁ w₂ s).stock = stockDates s.stock := by
  constructor
  · cases h : incPlan cutoff countQ updatedDates s with
    | none => rw [incRun_of_plan_none cutoff countQ updatedDates s h]
    | some RW =>
      obtain ⟨R, W?⟩ := RW
      cases W? with
      | none =>
        rw [incRun_of_plan_reset cutoff countQ updatedDates s R h]
        exact stockDates_applyWrites s.stock R
      | some W =>
        rw [incRun_of_plan_write cutoff countQ updatedDates s R W h]
        show stockDates (applyWrites (applyWrites s.stock R) W) = _
        rw [stockDates_applyWrites, stockDates_applyWrites]
  · cases h : fullPlan w₁ w₂ s with
    | none => rw [fullRun_of_plan_none w₁ w₂ s h]
    | some RW =>
      obtain ⟨R, W⟩ := RW
      rw [fullRun_of_plan_some w₁ w₂ s R W h]
      show stockDates (applyWrites (applyWrites s.stock R) W) = _
      rw [stockDates_applyWrites, stockDates_applyWrites]

/-- Claim C8: when the total-news count query raises, the incremental entry
point proceeds with the active (Roll-Forward, `is_low_activity = False`)
strategy instead of aborting: the run is identical to a run whose count
query returned an active-level count. -/
theorem C8_count_failure_defaults_to_active (cutoff : Nat) (updatedDates : List Nat)
    (s : EngineState) :
    optimized_process_sentiment_to_stock cutoff (Except.error ()) updatedDates s
      = optimized_process_sentiment_to_stock cutoff (Except.ok (some 50)) updatedDates s
  ∧ selectStrategy (Except.error ()) = false := by
  constructor
  · have hp : incPlan cutoff (Except.error ()) updatedDates s
        = incPlan cutoff (Except.ok (some 50)) updatedDates s := by
      simp only [incPlan, incStats]
      rw [show selectStrategy (Except.error ()) = selectStrategy (Except.ok (some 50)) from rfl]
    unfold optimized_process_sentiment_to_stock
    rw [hp]
  · rfl

theorem find?_cons_true (p : Nat → Bool) (x : Nat) (xs : List Nat) (h : p x = true) :
    (x :: xs).find? p = some x :=
  List.find?_cons_of_pos xs h

theorem find?_cons_false (p : Nat → Bool) (x : Nat) (xs : List Nat) (h : p x = false) :
    (x :: xs).find? p = xs.find? p :=
  List.find?_cons_of_neg xs (by simp [h])

theorem mem_of_getLast?_eq (l : List Nat) (a : Nat) (h : l.getLast? = some a) : a ∈ l := by
  have hx : a ∈ l.getLast? := by rw [Option.mem_def]; exact h
  obtain ⟨hne, heq⟩ := List.mem_getLast?_eq_getLast hx
  rw [heq]
  exact List.getLast_mem hne

theorem find_next_of_least (tds : List Nat) (hs : List.Pairwise (· < ·) tds) (d t : Nat)
    (ht : t ∈ tds) (hdt : d < t) (hmin : ∀ u ∈ tds, d < u → t ≤ u) :
    tds.find? (fun td => decide (d < td)) = some t := by
  induction tds with
  | nil => cases ht
  | cons x xs ih =>
    by_cases hx : d < x
    · have h₁ : t ≤ x := hmin x (List.mem_cons_self x xs) hx
      have h₂ : x ≤ t := by
        rcases List.mem_cons.mp ht with h | h
        · exact le_of_eq h.symm
        · exact le_of_lt ((List.pairwise_cons.mp hs).1 t h)
      rw [find?_cons_true (fun td => decide (d < td)) x xs (decide_eq_true hx)]
      rw [le_antisymm h₁ h₂]
    · rw [find?_cons_false (fun td => decide (d < td)) x xs (decide_eq_false hx)]
      apply ih (List.pairwise_cons.mp hs).2
      · rcases List.mem_cons.mp ht with h | h
        · exact absurd (h ▸ hdt) hx
        · exact h
      · exact fun u hu hdu => hmin u (List.mem_cons_of_mem x hu) hdu

theorem rollForwardTarget_mem (tds : List Nat) (d : Nat) (h : d ∈ tds) :
    rollForwardTarget tds d = some d := by
  unfold rollForwardTarget
  rw [if_pos h]

theorem rollForwardTarget_next (tds : List Nat) (hs : List.Pairwise (· < ·) tds) (d t : Nat)
    (hd : d ∉ tds) (ht : t ∈ tds) (hdt : d < t) (hmin : ∀ u ∈ tds, d < u → t ≤ u) :
    rollForwardTarget tds d = some t := by
  have hfind : nextTradingDay tds d = some t := find_next_of_least tds hs d t ht hdt hmin
  simp [rollForwardTarget, hfind, hd]

theorem rollForwardTarget_tail (tds : List Nat) (d last : Nat) (hd : d ∉ tds)
    (hlast : tds.getLast? = some last) (hall : ∀ u ∈ tds, ¬ d < u) :
    (¬ d < last → rollForwardTarget tds d = some last)
  ∧ (d < last → rollForwardTarget tds d = none) := by
  have hfind : nextTradingDay tds d = none :=
    List.find?_eq_none.mpr (fun u hu => by simpa using hall u hu)
  constructor
  · intro hge
    simp [rollForwardTarget, hfind, hd, hlast, Nat.le_of_not_lt hge]
  · intro hlt
    exact absurd hlt (hall last (mem_of_getLast?_eq tds last hlast))

theorem insertPair_mem (m : List (Nat × List Nat)) (t d₀ d : Nat) :
    (∃ kv ∈ insertPair m t d₀, d ∈ kv.2) ↔ (∃ kv ∈ m, d ∈ kv.2) ∨ d = d₀ := by
  induction m with
  | nil =>
    show (∃ kv ∈ [(t, [d₀])], d ∈ kv.2) ↔ _
    simp
  | cons kv rest ih =>
    show (∃ e ∈ (if kv.1 = t then (kv.1, kv.2 ++ [d₀]) :: rest else kv :: insertPair rest t d₀),
        d ∈ e.2) ↔ _
    by_cases hk : kv.1 = t
    · rw [if_pos hk]
      constructor
      · rintro ⟨e, he, hde⟩
        rcases List.mem_cons.mp he with heq | hmem
        · rw [heq] at hde
          rcases List.mem_append.mp hde with h | h
          · exact Or.inl ⟨kv, List.mem_cons_self kv rest, h⟩
          · exact Or.inr (List.mem_singleton.mp h)
        · exact Or.inl ⟨e, List.mem_cons_of_mem kv hmem, hde⟩
      · rintro (⟨e, he, hde⟩ | hd0)
        · rcases List.mem_cons.mp he with heq | hmem
          · refine ⟨(kv.1, kv.2 ++ [d₀]), List.mem_cons_self _ _, ?_⟩
            rw [heq] at hde
            exact List.mem_append.mpr (Or.inl hde)
          · exact ⟨e, List.mem_cons_of_mem _ hmem, hde⟩
        · exact ⟨(kv.1, kv.2 ++ [d₀]), List.mem_cons_self _ _,
            List.mem_append.mpr (Or.inr (List.mem_singleton.mpr hd0))⟩
    · rw [if_neg hk]
      constructor
      · rintro ⟨e, he, hde⟩
        rcases List.mem_cons.mp he with heq | hmem
        · refine Or.inl ⟨e, ?_, hde⟩
          rw [heq]
          exact List.mem_cons_self kv rest
        · rcases ih.mp ⟨e, hmem, hde⟩ with ⟨f, hf, hdf⟩ | h
          · exact Or.inl ⟨f, List.mem_cons_of_mem kv hf, hdf⟩
          · exact Or.inr h
      · rintro (⟨e, he, hde⟩ | hd0)
        · rcases List.mem_cons.mp he with heq | hmem
          · refine ⟨e, ?_, hde⟩
            rw [heq]
            exact List.mem_cons_self kv _
          · obtain ⟨f, hf, hdf⟩ := ih.mpr (Or.inl ⟨e, hmem, hde⟩)
            exact ⟨f, List.mem_cons_of_mem kv hf, hdf⟩
        · obtain ⟨f, hf, hdf⟩ := ih.mpr (Or.inr hd0)
          exact ⟨f, List.mem_cons_of_mem kv hf, hdf⟩

theorem buildMappingStep_none (tds : List Nat) (acc : List (Nat × List Nat)) (d : Nat)
    (h : rollForwardTarget tds d = none) : buildMappingStep tds acc d = acc := by
  unfold buildMappingStep
  rw [h]

theorem buildMappingStep_some (tds : List Nat) (acc : List (Nat × List Nat)) (d t : Nat)
    (h : rollForwardTarget tds d = some t) : buildMappingStep tds acc d = insertPair acc t d := by
  unfold buildMappingStep
  rw [h]

theorem buildMappingGo_mem (tds : List Nat) (nds : List Nat) (acc : List (Nat × List Nat))
    (d : Nat) :
    (∃ kv ∈ buildMappingGo tds acc nds, d ∈ kv.2)
      ↔ (∃ kv ∈ acc, d ∈ kv.2) ∨ (d ∈ nds ∧ (rollForwardTarget tds d).isSome) := by
  induction nds generalizing acc with
  | nil => simp [buildMappingGo]
  | cons d' rest ih =>
    show (∃ kv ∈ buildMappingGo tds (buildMappingStep tds acc d') rest, d ∈ kv.2) ↔ _
    rw [ih]
    cases htgt : rollForwardTarget tds d' with
    | none =>
      rw [buildMappingStep_none tds acc d' htgt]
      by_cases hdd : d = d'
      · subst hdd
        simp [htgt]
      · simp [List.mem_cons, hdd]
    | some t =>
      rw [buildMappingStep_some tds acc d' t htgt, insertPair_mem]
      by_cases hdd : d = d'
      · subst hdd
        simp [htgt, List.mem_cons]
      · simp [List.mem_cons, hdd]

theorem rollForwardTarget_none_unmapped (tds nds : List Nat) (d : Nat)
    (h : rollForwardTarget tds d = none) :
    ∀ kv ∈ buildMapping tds nds, d ∉ kv.2 := by
  intro kv hkv hd
  have hmem : ∃ kv ∈ buildMappingGo tds [] nds, d ∈ kv.2 := ⟨kv, hkv, hd⟩
  rw [buildMappingGo_mem] at hmem
  rcases hmem with ⟨e, he, _⟩ | ⟨_, hsome⟩
  · cases he
  · rw [h] at hsome
    cases hsome

/-- Claim C1: in Roll-Forward (active) mode, a news date that is a trading
day maps to itself; otherwise it maps to the smallest trading day strictly
greater than it; and when no trading day is strictly greater it maps to
the latest known trading day exactly when it is not earlier than that
latest day, being dropped from the affected-session map otherwise (a date
with no target appears in no entry of the mapping). -/
theorem C1_roll_forward_resolution (tds newsDates : List Nat)
    (hs : List.Pairwise (· < ·) tds) (d : Nat) :
    (d ∈ tds → rollForwardTarget tds d = some d)
  ∧ (∀ t, d ∉ tds → t ∈ tds → d < t → (∀ u ∈ tds, d < u → t ≤ u) →
      rollForwardTarget tds d = some t)
  ∧ (∀ last, d ∉ tds → tds.getLast? = some last → (∀ u ∈ tds, ¬ d < u) →
      ((¬ d < last → rollForwardTarget tds d = some last)
        ∧ (d < last → rollForwardTarget tds d = none)))
  ∧ (rollForwardTarget tds d = none → ∀ kv ∈ buildMapping tds newsDates, d ∉ kv.2) :=
  ⟨fun h => rollForwardTarget_mem tds d h,
   fun t hd ht hdt hmin => rollForwardTarget_next tds hs d t hd ht hdt hmin,
   fun last hd hlast hall => rollForwardTarget_tail tds d last hd hlast hall,
   fun h => rollForwardTarget_none_unmapped tds newsDates d h⟩

theorem C1_roll_forward_resolution_witness :
    rollForwardTarget [11, 12, 15] 13 = some 15 ∧ rollForwardTarget [11, 12, 15] 12 = some 12 :=
  ⟨(C1_roll_forward_resolution [11, 12, 15] [] (by decide) 13).2.1 15 (by decide) (by decide)
      (by decide) (by decide),
   (C1_roll_forward_resolution [11, 12, 15] [] (by decide) 12).1 (by decide)⟩

theorem pairwise_head_not_mem (x : Nat) (xs : List Nat)
    (hs : List.Pairwise (· < ·) (x :: xs)) : x ∉ xs := by
  intro hmem
  exact lt_irrefl x ((List.pairwise_cons.mp hs).1 x hmem)

theorem prevTradingDayGo_none (x : Nat) (ys : List Nat) (a : Nat) (h : a ∉ ys) :
    prevTradingDayGo x ys a = none := by
  induction ys generalizing x with
  | nil => rfl
  | cons y ys ih =>
    have hne : ¬ (y = a) := fun he => h (List.mem_cons.mpr (Or.inl he.symm))
    show (if y = a then some x else prevTradingDayGo y ys a) = none
    rw [if_neg hne]
    exact ih y (fun hm => h (List.mem_cons_of_mem y hm))

theorem rangeStart_of_prev_none (tds : List Nat) (a : Nat) (h : prevTradingDay tds a = none) :
    rangeStart tds a = a - 7 := by
  unfold rangeStart
  rw [h]

theorem rollForwardTarget_after_last (tds : List Nat) (d last : Nat)
    (hlast : tds.getLast? = some last) (hall : ∀ u ∈ tds, u < d) :
    rollForwardTarget tds d = some last := by
  have hd : d ∉ tds := fun hm => lt_irrefl d (hall d hm)
  have hnl : ∀ u ∈ tds, ¬ d < u := fun u hu => Nat.lt_asymm (hall u hu)
  exact (rollForwardTarget_tail tds d last hd hlast hnl).1
    (Nat.lt_asymm (hall last (mem_of_getLast?_eq tds last hlast)))

theorem rollForwardTarget_before_first (tds : List Nat) (hs : List.Pairwise (· < ·) tds)
    (first d : Nat) (hfirst : tds.head? = some first) (hd : d < first) :
    rollForwardTarget tds d = some first := by
  cases tds with
  | nil => cases hfirst
  | cons x xs =>
    have hx : x = first := Option.some.inj hfirst
    subst hx
    have hdm : d ∉ x :: xs := by
      intro hm
      rcases List.mem_cons.mp hm with heq | hm
      · exact lt_irrefl d (heq ▸ hd)
      · exact absurd ((List.pairwise_cons.mp hs).1 d hm) (Nat.lt_asymm hd)
    have hfind : nextTradingDay (x :: xs) d = some x :=
      find?_cons_true (fun td => decide (d < td)) x xs (decide_eq_true hd)
    simp [rollForwardTarget, hdm, hfind]

theorem rangeFor_head (tds : List Nat) (hs : List.Pairwise (· < ·) tds) (first d : Nat)
    (hfirst : tds.head? = some first) (hd : d < first) :
    (d ∈ rangeFor tds first ↔ first ≤ d + 7) := by
  cases tds with
  | nil => cases hfirst
  | cons x xs =>
    have hx : x = first := Option.some.inj hfirst
    subst hx
    have hprev : prevTradingDay (x :: xs) x = none :=
      prevTradingDayGo_none x xs x (pairwise_head_not_mem x xs hs)
    have hstart : rangeStart (x :: xs) x = x - 7 := rangeStart_of_prev_none _ _ hprev
    unfold rangeFor
    rw [hstart]
    have hmem : d ∈ List.range' (x - 7) (x + 1 - (x - 7))
        ↔ (x - 7 ≤ d ∧ d < (x - 7) + (x + 1 - (x - 7))) := by
      rw [List.mem_range']
      constructor
      · rintro ⟨i, hi, rfl⟩
        omega
      · rintro ⟨h1, h2⟩
        exact ⟨d - (x - 7), by omega, by omega⟩
    rw [hmem]
    omega

/-- Claim C5 (amended): under the Roll-Forward strategy a news record dated
strictly after the latest known trading session maps (and aggregates) onto
that latest session; a news record dated strictly before the earliest known
trading session is *not* dropped — it maps onto the earliest session, and
the aggregated counter's widened range for that session makes it contribute
exactly when it lies at most 7 days before the earliest session. -/
theorem C5_tail_overflow_amended (tds : List Nat) (hs : List.Pairwise (· < ·) tds) (d : Nat) :
    (∀ last, tds.getLast? = some last → (∀ u ∈ tds, u < d) →
       rollForwardTarget tds d = some last)
  ∧ (∀ first, tds.head? = some first → d < first → rollForwardTarget tds d = some first)
  ∧ (∀ first, tds.head? = some first → d < first → (d ∈ rangeFor tds first ↔ first ≤ d + 7)) :=
  ⟨fun last hlast hall => rollForwardTarget_after_last tds d last hlast hall,
   fun first hfirst hd => rollForwardTarget_before_first tds hs first d hfirst hd,
   fun first hfirst hd => rangeFor_head tds hs first d hfirst hd⟩

theorem C5_tail_overflow_amended_witness :
    rollForwardTarget [11, 12, 15] 16 = some 15
  ∧ rollForwardTarget [11, 12, 15] 10 = some 11
  ∧ (10 ∈ rangeFor [11, 12, 15] 11 ↔ (11 : Nat) ≤ 10 + 7) :=
  ⟨(C5_tail_overflow_amended [11, 12, 15] (by decide) 16).1 15 (by decide) (by decide),
   (C5_tail_overflow_amended [11, 12, 15] (by decide) 10).2.1 11 (by decide) (by decide),
   (C5_tail_overflow_amended [11, 12, 15] (by decide) 10).2.2 11 (by decide) (by decide)⟩

/-- Claim C5 counterexample: on the 50-session calendar 100..149 (active in
both resolver and strategy selector), the news record dated 95 — strictly
before the earliest session 100 — is not dropped entirely: it maps onto
session 100, lies inside that session's 7-day lookback fetch range, and the
incremental Roll-Forward run writes Neutral = 1 onto session 100. -/
theorem C5_before_earliest_not_dropped :
    (sortDates (stockDates demoStock)).head? = some 100
  ∧ rollForwardTarget (sortDates (stockDates demoStock)) 95 = some 100
  ∧ 95 ∈ rangeFor (sortDates (stockDates demoStock)) 100
  ∧ getRow (optimized_process_sentiment_to_stock 0 (Except.ok (some 100)) [95] demoState).stock
      100 = some ⟨100, some 1, 0, 0, 1⟩ := by
  decide

/-- Claim C4 counterexample: an instrument with 49 total ever-ingested news
records — which the claim says selects the Daily (identity-mapping) mode
outright — but 50 recent trading days: the resolver still rolls the news
date 95 forward onto session 100, whose row receives the counts, although
no session row exists for 95; so the recent-trading-day count, a quantity
other than the news count, decided the mapping mode used in the run. -/
theorem C4_mode_not_solely_news_count :
    selectStrategy (Except.ok (some 49)) = true
  ∧ resolverMode 0 (sortDates (stockDates demoStock)) = false
  ∧ getRow demoState.stock 95 = none
  ∧ getRow (optimized_process_sentiment_to_stock 0 (Except.ok (some 49)) [95] demoState).stock
      100 = some ⟨100, some 1, 0, 0, 1⟩ := by
  decide

/-- Claim C4 (amended): the Daily vs Roll-Forward *counting* strategy is
selected solely by comparing the instrument's total ever-ingested news
count to the threshold 50 (49 selects Daily, 50 selects Roll-Forward); but
the Affected-Session Resolver's mapping mode is selected independently, by
whether fewer than 50 trading days fall on or after the cutoff date, so
that quantity also influences the run. -/
theorem C4_strategy_threshold (n cutoff : Nat) (tds : List Nat) :
    selectStrategy (Except.ok (some n)) = decide (n < 50)
  ∧ selectStrategy (Except.ok (some 49)) = true
  ∧ selectStrategy (Except.ok (some 50)) = false
  ∧ resolverMode cutoff tds = decide (recentCount cutoff tds < 50) :=
  ⟨rfl, rfl, rfl, rfl⟩

theorem insertSorted_ne_nil (d : Nat) (l : List Nat) : insertSorted d l ≠ [] := by
  cases l with
  | nil => simp [insertSorted]
  | cons x xs =>
    show (if d ≤ x then d :: x :: xs else x :: insertSorted d xs) ≠ []
    by_cases h : d ≤ x
    · rw [if_pos h]
      simp
    · rw [if_neg h]
      simp

theorem sortDates_ne_nil (l : List Nat) (h : l ≠ []) : sortDates l ≠ [] := by
  cases l with
  | nil => exact absurd rfl h
  | cons x xs => exact insertSorted_ne_nil x (sortDates xs)

theorem insertPair_fresh (m : List (Nat × List Nat)) (t d : Nat)
    (h : ∀ kv ∈ m, kv.1 ≠ t) : insertPair m t d = m ++ [(t, [d])] := by
  induction m with
  | nil => rfl
  | cons kv rest ih =>
    show (if kv.1 = t then (kv.1, kv.2 ++ [d]) :: rest else kv :: insertPair rest t d) = _
    rw [if_neg (h kv (List.mem_cons_self kv rest))]
    rw [ih (fun e he => h e (List.mem_cons_of_mem kv he))]
    rfl

theorem buildDailyMappingGo_eq : ∀ (nds : List Nat) (acc : List (Nat × List Nat)),
    nds.Nodup → (∀ kv ∈ acc, kv.1 ∉ nds) →
    buildDailyMappingGo acc nds = acc ++ nds.map (fun d => (d, [d]))
  | [], acc, _, _ => by simp [buildDailyMappingGo]
  | d :: rest, acc, hnd, hdisj => by
    show buildDailyMappingGo (insertPair acc d d) rest = _
    have hfresh : insertPair acc d d = acc ++ [(d, [d])] :=
      insertPair_fresh acc d d
        (fun kv hkv he => (hdisj kv hkv) (List.mem_cons.mpr (Or.inl he)))
    rw [hfresh]
    rw [buildDailyMappingGo_eq rest (acc ++ [(d, [d])]) (List.nodup_cons.mp hnd).2 ?_]
    · rw [List.append_assoc, List.singleton_append]
      rfl
    · intro kv hkv
      rcases List.mem_append.mp hkv with hmem | hmem
      · exact fun hm => hdisj kv hmem (List.mem_cons_of_mem d hm)
      · have hkvd : kv = (d, [d]) := List.mem_singleton.mp hmem
        rw [hkvd]
        exact (List.nodup_cons.mp hnd).1

/-- Claim C10: the Affected-Session Resolver chooses the daily identity
mapping exactly when the instrument has fewer than 50 trading days on or
after the cutoff date (the source's 2024-01-01); the criterion reads only
the calendar, and indeed an instrument can combine an active resolver mode
(50 recent trading days) with a low-activity counting strategy (49 news
records), so the two modes of one run can disagree. -/
theorem C10_resolver_criterion_independent (cutoff : Nat) (sdl nds : List Nat)
    (hn : nds ≠ []) (hsd : sdl ≠ []) (hnd : nds.Nodup) :
    (recentCount cutoff (sortDates sdl) < 50 →
       get_affected_trading_days cutoff sdl nds = buildDailyMapping nds)
  ∧ (¬ recentCount cutoff (sortDates sdl) < 50 →
       get_affected_trading_days cutoff sdl nds = buildMapping (sortDates sdl) nds)
  ∧ buildDailyMapping nds = nds.map (fun d => (d, [d]))
  ∧ resolverMode 0 (sortDates (stockDates demoStock)) = false
  ∧ selectStrategy (Except.ok (some 49)) = true := by
  have hne : nds.isEmpty = false := by
    cases nds with
    | nil => exact absurd rfl hn
    | cons _ _ => rfl
  have hse : (sortDates sdl).isEmpty = false := by
    cases hss : sortDates sdl with
    | nil => exact absurd hss (sortDates_ne_nil sdl hsd)
    | cons _ _ => rfl
  refine ⟨?_, ?_, ?_, by decide, rfl⟩
  · intro h
    have hr : resolverMode cutoff (sortDates sdl) = true := decide_eq_true h
    simp [get_affected_trading_days, hne, hse, hr]
  · intro h
    have hr : resolverMode cutoff (sortDates sdl) = false := decide_eq_false h
    simp [get_affected_trading_days, hne, hse, hr]
  · have hgo := buildDailyMappingGo_eq nds [] hnd (fun kv hkv => by cases hkv)
    show buildDailyMappingGo [] nds = _
    rw [hgo]
    rfl

theorem C10_resolver_criterion_independent_witness :
    get_affected_trading_days 0 [11] [13] = buildDailyMapping [13] :=
  (C10_resolver_criterion_independent 0 [11] [13] (by decide) (by decide) (by decide)).1
    (by decide)

/-- Claim C6: the scenario from the spec — trading days 11, 12, 15 (the
spec's 2025-08-11/12/15, Wed/Thu holiday), news 11 → 1 Positive,
13 → 2 Negative, 14 → 1 Neutral — aggregated by the full-window run:
session 11 gets (1,0,0), session 12 is reset to (0,0,0), session 15 gets
the flushed remainder (0,2,1); stale counters (5,5,5) are overwritten. -/
theorem C6_scenario_full_window :
    (reset_and_aggregate_sentiment_30days 1 30
        ⟨[⟨11, some 1, 5, 5, 5⟩, ⟨12, some 1, 5, 5, 5⟩, ⟨15, some 1, 5, 5, 5⟩],
         [⟨11, some Label.Positive⟩, ⟨13, some Label.Negative⟩, ⟨13, some Label.Negative⟩,
          ⟨14, some Label.Neutral⟩]⟩).stock
      = [⟨11, some 1, 1, 0, 0⟩, ⟨12, some 1, 0, 0, 0⟩, ⟨15, some 1, 0, 2, 1⟩] := by
  decide

/-- The concrete store on which the full-window sweep violates span
conservation: trading days 11, 12, 15, 18 with a Negative news record
dated 13 and a Positive one dated 18. -/
def bugState : EngineState :=
  ⟨[⟨11, some 1, 0, 0, 0⟩, ⟨12, some 1, 0, 0, 0⟩, ⟨15, some 1, 7, 7, 7⟩, ⟨18, some 1, 0, 0, 0⟩],
   [⟨13, some Label.Negative⟩, ⟨18, some Label.Positive⟩]⟩

/-- Claim C2 (code bug): the sweep flushes the pending bucket only when a
news-bearing date coincides with a trading session, so with trading days
11, 12, 15, 18 and news {13 → 1 Negative, 18 → 1 Positive}, session 15
(which has no news row of its own) ends at (0,0,0) although the span
(12, 15] holds one Negative record, and session 18 receives (1,1,0)
although its span (15, 18] holds only the one Positive record — contrary
to the conservation property and to the module's own docstring and log
line ("aggregated into {next_trading_day}"). -/
theorem C2_conservation_violated :
    getRow (reset_and_aggregate_sentiment_30days 1 30 bugState).stock 15
        = some ⟨15, some 1, 0, 0, 0⟩
  ∧ getRow (reset_and_aggregate_sentiment_30days 1 30 bugState).stock 18
        = some ⟨18, some 1, 1, 1, 0⟩
  ∧ spanSum bugState.news 12 15 = ⟨0, 1, 0⟩
  ∧ spanSum bugState.news 15 18 = ⟨1, 0, 0⟩ := by
  decide

theorem chunksOfGo_flatten (k : Nat) (hk : 0 < k) :
    ∀ (fuel : Nat) (l : List Nat), l.length ≤ fuel → (chunksOfGo k fuel l).flatten = l
  | 0, l, h => by
    have hnil : l = [] := List.eq_nil_of_length_eq_zero (Nat.le_zero.mp h)
    rw [hnil]
    rfl
  | fuel + 1, l, h => by
    show (if l.isEmpty then [] else l.take k :: chunksOfGo k fuel (l.drop k)).flatten = l
    cases l with
    | nil => rfl
    | cons x xs =>
      rw [if_neg (by simp)]
      show (x :: xs).take k ++ (chunksOfGo k fuel ((x :: xs).drop k)).flatten = x :: xs
      rw [chunksOfGo_flatten k hk fuel ((x :: xs).drop k)
        (by rw [List.length_drop]; simp only [List.length_cons] at h ⊢; omega)]
      exact List.take_append_drop k (x :: xs)

theorem chunksOf_flatten (k : Nat) (hk : 0 < k) (l : List Nat) : (chunksOf k l).flatten = l :=
  chunksOfGo_flatten k hk l.length l (le_refl _)

theorem queryEq_eq_queryIn_single (news : List NewsRow) (d : Nat) :
    queryEqDate news d = queryInDates news [d] := by
  unfold queryEqDate queryInDates
  apply List.filter_congr
  intro r _
  have hdec : decide (r.date ∈ [d]) = decide (r.date = d) := decide_eq_decide.mpr (by simp)
  rw [hdec]

theorem chunkBranch_eq (news : List NewsRow) (c : List Nat) :
    (match c with
     | [d] => queryEqDate news d
     | _ => queryInDates news c) = queryInDates news c := by
  match c with
  | [] => rfl
  | [d] => exact queryEq_eq_queryIn_single news d
  | d₁ :: d₂ :: rest => rfl

theorem flatMap_congr_fun (f g : List Nat → List NewsRow) (L : List (List Nat))
    (h : ∀ c, f c = g c) : L.flatMap f = L.flatMap g := by
  induction L with
  | nil => rfl
  | cons c cs ih =>
    rw [List.flatMap_cons, List.flatMap_cons, h c, ih]

theorem chunkedQuery_eq_flatMap (news : List NewsRow) (ds : List Nat) (k : Nat) :
    chunkedQuery news ds k = (chunksOf k ds).flatMap (fun c => queryInDates news c) := by
  unfold chunkedQuery
  exact flatMap_congr_fun _ _ (chunksOf k ds) (fun c => chunkBranch_eq news c)

theorem countP_flatMap (f : List Nat → List NewsRow) (L : List (List Nat)) (p : NewsRow → Bool) :
    (L.flatMap f).countP p = (L.map (fun c => (f c).countP p)).sum := by
  induction L with
  | nil => rfl
  | cons c cs ih =>
    rw [List.flatMap_cons, List.countP_append, ih, List.map_cons, List.sum_cons]

theorem countLabel_queryIn (news : List NewsRow) (c : List Nat) (d : Nat) (lab : Label) :
    countLabel (queryInDates news c) d lab = if d ∈ c then countLabel news d lab else 0 := by
  unfold countLabel queryInDates
  rw [List.countP_filter]
  by_cases hd : d ∈ c
  · rw [if_pos hd]
    apply List.countP_congr
    intro r _
    by_cases hp : (r.date = d ∧ r.sentiment = some lab)
    · have h1 : decide (r.date = d ∧ r.sentiment = some lab) = true := decide_eq_true hp
      have hl : labeled r = true := by
        unfold labeled
        rw [hp.2]
        rfl
      have hm : decide (r.date ∈ c) = true := decide_eq_true (hp.1 ▸ hd)
      rw [h1, hl, hm]
      simp
    · have h1 : decide (r.date = d ∧ r.sentiment = some lab) = false := decide_eq_false hp
      rw [h1]
      simp
  · rw [if_neg hd]
    rw [List.countP_eq_zero]
    intro r _
    by_cases hp : (r.date = d ∧ r.sentiment = some lab)
    · have hm : decide (r.date ∈ c) = false :=
        decide_eq_false (fun hmem => hd (hp.1 ▸ hmem))
      simp [hm]
    · simp [decide_eq_false hp]

theorem sum_count_chunks (L : List (List Nat)) (N : Nat) (d : Nat) (h : L.flatten.Nodup) :
    (L.map (fun c => if d ∈ c then N else 0)).sum = if d ∈ L.flatten then N else 0 := by
  induction L with
  | nil => simp
  | cons c cs ih =>
    have hfl : (c ++ cs.flatten).Nodup := by
      rw [← List.flatten_cons]
      exact h
    have hcs := (List.nodup_append.mp hfl).2.1
    have hdisj := (List.nodup_append.mp hfl).2.2
    rw [List.map_cons, List.sum_cons, ih hcs, List.flatten_cons]
    by_cases hd : d ∈ c
    · have hd2 : d ∉ cs.flatten := fun hm => hdisj hd hm
      rw [if_pos hd, if_neg hd2, if_pos (List.mem_append.mpr (Or.inl hd))]
      omega
    · rw [if_neg hd]
      by_cases hd2 : d ∈ cs.flatten
      · rw [if_pos hd2, if_pos (List.mem_append.mpr (Or.inr hd2))]
        omega
      · rw [if_neg hd2, if_neg (fun hm => (List.mem_append.mp hm).elim hd hd2)]

theorem countLabel_chunkedQuery (news : List NewsRow) (ds : List Nat) (k : Nat) (hk : 0 < k)
    (hnd : ds.Nodup) (d : Nat) (lab : Label) :
    countLabel (chunkedQuery news ds k) d lab = countLabel (queryInDates news ds) d lab := by
  rw [chunkedQuery_eq_flatMap]
  have h1 : countLabel ((chunksOf k ds).flatMap (fun c => queryInDates news c)) d lab
      = ((chunksOf k ds).map (fun c => countLabel (queryInDates news c) d lab)).sum := by
    unfold countLabel
    exact countP_flatMap _ _ _
  have h2 : (fun c => countLabel (queryInDates news c) d lab)
      = (fun c => if d ∈ c then countLabel news d lab else 0) :=
    funext (fun c => countLabel_queryIn news c d lab)
  rw [h1, h2, sum_count_chunks (chunksOf k ds) (countLabel news d lab) d
    (by rw [chunksOf_flatten k hk ds]; exact hnd), chunksOf_flatten k hk ds,
    countLabel_queryIn news ds d lab]

/-- Claim C9: chunking a duplicate-free list of raw dates (size 10 in the
daily counter, size 20 in the aggregated counter), querying singleton
chunks with the equality filter and longer chunks with the set-membership
filter, yields exactly the per-date per-label counts of one set-membership
query over all the dates. -/
theorem C9_chunked_query_equivalence (news : List NewsRow) (ds : List Nat) (hnd : ds.Nodup)
    (d : Nat) (lab : Label) :
    countLabel (chunkedQuery news ds 10) d lab = countLabel (queryInDates news ds) d lab
  ∧ countLabel (chunkedQuery news ds 20) d lab = countLabel (queryInDates news ds) d lab :=
  ⟨countLabel_chunkedQuery news ds 10 (by decide) hnd d lab,
   countLabel_chunkedQuery news ds 20 (by decide) hnd d lab⟩

theorem C9_chunked_query_equivalence_witness :
    countLabel (chunkedQuery [⟨3, some Label.Positive⟩, ⟨4, some Label.Negative⟩]
        (List.range 25) 10) 3 Label.Positive
      = countLabel (queryInDates [⟨3, some Label.Positive⟩, ⟨4, some Label.Negative⟩]
        (List.range 25)) 3 Label.Positive
  ∧ countLabel (chunkedQuery [⟨3, some Label.Positive⟩, ⟨4, some Label.Negative⟩]
        (List.range 25) 20) 3 Label.Positive
      = countLabel (queryInDates [⟨3, some Label.Positive⟩, ⟨4, some Label.Negative⟩]
        (List.range 25)) 3 Label.Positive :=
  C9_chunked_query_equivalence [⟨3, some Label.Positive⟩, ⟨4, some Label.Negative⟩]
    (List.range 25) (by decide) 3 Label.Positive

end SPA
